import Mathlib

/-!
Verification of the Module Lifecycle & Dependency Gating Engine of the ERP
repository, together with the module-admin dashboard (frontend/module-admin/src/App.tsx).

The backend engine itself (FastAPI lifecycle endpoints, request gate, sys_tenant_module
store) is not part of the shipped sources; it is modelled here from the specification
(sections 3, 4.1, 4.2 and 7 of spec.md).  The dashboard definitions are translated
directly from App.tsx.  Version strings are modelled as naturals, ordered as the
release order of the packaged versions.
-/

/-- Modelled from the spec: ModuleManifest of the Manifest Catalog (spec section 3);
the backend catalog module is absent from the shipped sources. -/
structure ModuleManifest where
  module_key : String
  name : String
  version : Nat
  dependencies : List String
  seeders : List String
  installable : Bool
deriving Repr, DecidableEq

/-- Modelled from the spec: one TenantModuleState row of the Tenant Module State
Store (spec section 3); the backend store module is absent from the shipped sources. -/
structure TenantModuleState where
  installed : Bool
  installed_version : Option Nat
  enabled : Bool
deriving Repr, DecidableEq

/-- The Manifest Catalog: read-only list of manifests. -/
abbrev Catalog := List ModuleManifest

/-- Per-tenant store: a lazily created row per module key; `none` means the row
is absent (the tenant never touched the module). -/
abbrev TenantState := String → Option TenantModuleState

/-- The implicit state of a module whose row is absent: not installed, not enabled. -/
def emptyState : TenantModuleState :=
  { installed := false, installed_version := none, enabled := false }

/-- Read the effective state of a module for the tenant: absent rows read as
`emptyState`. -/
def getState (st : TenantState) (key : String) : TenantModuleState :=
  (st key).getD emptyState

/-- Write (create or overwrite) one row of the store. -/
def setState (st : TenantState) (key : String) (v : TenantModuleState) : TenantState :=
  fun k => if k = key then some v else st k

/-- Catalog lookup by module key. -/
def findManifest (cat : Catalog) (key : String) : Option ModuleManifest :=
  cat.find? (fun m => m.module_key == key)

/-- Modelled from the spec: error taxonomy of section 7. -/
inductive LifecycleError where
  | UnknownModule
  | NotInstallable
  | DependencyNotInstalled (missing : List String)
  | NotInstalled
  | DependencyNotEnabled (missing : List String)
  | MigrationFailed
  | UnknownSeeder
  | NotEnabled
  | SeedFailed
deriving Repr, DecidableEq

/-- Direct dependencies of `m` whose tenant row is not installed (a single pass
over the declared dependency list, no transitive closure). -/
def missingInstalled (st : TenantState) (m : ModuleManifest) : List String :=
  m.dependencies.filter fun d => !(getState st d).installed

/-- Direct dependencies of `m` whose tenant row is not enabled. -/
def missingEnabled (st : TenantState) (m : ModuleManifest) : List String :=
  m.dependencies.filter fun d => !(getState st d).enabled

/-- Modelled from the spec: Install(tenant, key) of the Lifecycle Engine
(spec section 4.1); the backend engine is absent from the shipped sources.
Checks run in the listed order: UnknownModule, NotInstallable,
DependencyNotInstalled, then already-installed no-op. -/
def installOp (cat : Catalog) (st : TenantState) (key : String) :
    Except LifecycleError TenantState :=
  match findManifest cat key with
  | none => .error .UnknownModule
  | some m =>
    if m.installable then
      if (missingInstalled st m).isEmpty then
        if (getState st key).installed then .ok st
        else .ok (setState st key
          { getState st key with installed := true, installed_version := some m.version })
      else .error (.DependencyNotInstalled (missingInstalled st m))
    else .error .NotInstallable

/-- Modelled from the spec: Enable(tenant, key) (spec section 4.1); the backend
engine is absent from the shipped sources. -/
def enableOp (cat : Catalog) (st : TenantState) (key : String) :
    Except LifecycleError TenantState :=
  match findManifest cat key with
  | none => .error .UnknownModule
  | some m =>
    if (getState st key).installed then
      if (missingEnabled st m).isEmpty then
        if (getState st key).enabled then .ok st
        else .ok (setState st key { getState st key with enabled := true })
      else .error (.DependencyNotEnabled (missingEnabled st m))
    else .error .NotInstalled

/-- Modelled from the spec: Disable(tenant, key) (spec section 4.1); the backend
engine is absent from the shipped sources.  No-op success if already disabled or
never installed; no cascade to dependents. -/
def disableOp (cat : Catalog) (st : TenantState) (key : String) :
    Except LifecycleError TenantState :=
  match findManifest cat key with
  | none => .error .UnknownModule
  | some _ =>
    if (getState st key).enabled then
      .ok (setState st key { getState st key with enabled := false })
    else .ok st

/-- Modelled from the spec: Upgrade(tenant, key) (spec section 4.1); the backend
engine is absent from the shipped sources.  The Migration Runner collaborator is
modelled by its outcome `migOk`; the store is mutated only after a successful
migration, and the runner is not invoked when the installed version already
equals the packaged version. -/
def upgradeOp (cat : Catalog) (st : TenantState) (key : String) (migOk : Bool) :
    Except LifecycleError TenantState :=
  match findManifest cat key with
  | none => .error .UnknownModule
  | some m =>
    if (getState st key).installed then
      if (getState st key).installed_version = some m.version then .ok st
      else if migOk then
        .ok (setState st key { getState st key with installed_version := some m.version })
      else .error .MigrationFailed
    else .error .NotInstalled

/-- Modelled from the spec: Seed(tenant, key, seedKey) (spec section 4.1); the
backend engine is absent from the shipped sources.  The Seed Runner collaborator
is modelled by its outcome `seedOk`; the engine mutates no tenant-module state
for seed operations regardless of outcome. -/
def seedOp (cat : Catalog) (st : TenantState) (key : String) (seedKey : String)
    (seedOk : Bool) : Except LifecycleError TenantState :=
  match findManifest cat key with
  | none => .error .UnknownModule
  | some m =>
    if m.seeders.contains seedKey then
      if (getState st key).installed && (getState st key).enabled then
        if seedOk then .ok st else .error .SeedFailed
      else .error .NotEnabled
    else .error .UnknownSeeder

/-- The store after an operation: a failed operation leaves the store untouched
(every operation is an atomic transaction, spec section 4.1 and 7). -/
def storeAfter (st : TenantState) (r : Except LifecycleError TenantState) : TenantState :=
  match r with
  | .ok st' => st'
  | .error _ => st

/-- One engine operation, for reasoning about sequences of operations. -/
inductive EngineOp where
  | install (key : String)
  | enable (key : String)
  | disable (key : String)
  | upgrade (key : String) (migOk : Bool)
  | seed (key : String) (seedKey : String) (seedOk : Bool)
deriving Repr, DecidableEq

/-- Run one engine operation against the store (failed operations leave it
untouched). -/
def applyOp (cat : Catalog) (st : TenantState) : EngineOp → TenantState
  | .install key => storeAfter st (installOp cat st key)
  | .enable key => storeAfter st (enableOp cat st key)
  | .disable key => storeAfter st (disableOp cat st key)
  | .upgrade key migOk => storeAfter st (upgradeOp cat st key migOk)
  | .seed key seedKey seedOk => storeAfter st (seedOp cat st key seedKey seedOk)

/-- Run a sequence of engine operations. -/
def applyOps (cat : Catalog) (ops : List EngineOp) (st : TenantState) : TenantState :=
  ops.foldl (applyOp cat) st

/-- The tenant-module invariant of spec section 3: enabled implies installed,
enabled implies every direct dependency enabled, installed implies every direct
dependency installed. -/
def StateInv (cat : Catalog) (st : TenantState) : Prop :=
  ∀ m ∈ cat,
    ((getState st m.module_key).enabled = true → (getState st m.module_key).installed = true)
    ∧ ((getState st m.module_key).enabled = true →
        ∀ d ∈ m.dependencies, (getState st d).enabled = true)
    ∧ ((getState st m.module_key).installed = true →
        ∀ d ∈ m.dependencies, (getState st d).installed = true)

/-- The two parts of the invariant that Disable cannot break: enabled implies
installed, and installed implies every direct dependency installed. -/
def WeakInv (cat : Catalog) (st : TenantState) : Prop :=
  ∀ m ∈ cat,
    ((getState st m.module_key).enabled = true → (getState st m.module_key).installed = true)
    ∧ ((getState st m.module_key).installed = true →
        ∀ d ∈ m.dependencies, (getState st d).installed = true)

instance (cat : Catalog) (st : TenantState) : Decidable (StateInv cat st) := by
  unfold StateInv; infer_instance

instance (cat : Catalog) (st : TenantState) : Decidable (WeakInv cat st) := by
  unfold WeakInv; infer_instance

/-- The version invariant of spec section 3: installed_version is set if and only
if installed is true, and never exceeds the packaged version of the manifest. -/
def VersionInv (cat : Catalog) (st : TenantState) : Prop :=
  ∀ m ∈ cat,
    ((getState st m.module_key).installed_version = none ↔
      (getState st m.module_key).installed = false)
    ∧ (∀ v, (getState st m.module_key).installed_version = some v → v ≤ m.version)

instance (cat : Catalog) (st : TenantState) : Decidable (VersionInv cat st) := by
  unfold VersionInv; infer_instance

/-- Order on optional installed versions: an absent version is below everything,
and present versions compare as naturals.  Used to state version non-regression. -/
def verLe : Option Nat → Option Nat → Prop
  | none, _ => True
  | some v, some w => v ≤ w
  | some _, none => False

instance (a b : Option Nat) : Decidable (verLe a b) := by
  unfold verLe; cases a <;> cases b <;> infer_instance

/-- Outcome of a business-module request at the HTTP boundary: the request
proceeds to the module handler, or is answered not-found (404), or forbidden
(403).  The gate never produces `forbidden`. -/
inductive GateResult where
  | proceed
  | notFound
  | forbidden
deriving Repr, DecidableEq

/-- Modelled from the spec: the Request Gate (spec section 4.2); the backend
gating middleware is absent from the shipped sources.  Looks up the enabled flag
of the tenant row; false or absent rejects with not-found. -/
def requestGate (st : TenantState) (key : String) : GateResult :=
  if (getState st key).enabled then .proceed else .notFound

/-- Modelled from the spec: dispatch of a business request.  `routes` is the set
of module keys with mounted routers; a request to any other key is a request to
a nonexistent route and is answered not-found. -/
def businessRequest (routes : List String) (st : TenantState) (key : String) : GateResult :=
  if routes.contains key then requestGate st key else .notFound

/-! Dashboard model, translated from frontend/module-admin/src/App.tsx. -/

/-- The record shape served by GET /admin/modules, as the dashboard types it
(`type Mod` in App.tsx).  Frontend versions stay strings. -/
structure ModRecord where
  module_key : String
  name : String
  version : String
  dependencies : List String
  installed : Bool
  enabled : Bool
  installable : Bool
  seeders : List String
  installed_version : Option String
deriving Repr, DecidableEq

/-- The `byKey` map of App.tsx: module lookup among the fetched records. -/
def modByKey (mods : List ModRecord) (k : String) : Option ModRecord :=
  mods.find? fun m => m.module_key == k

/-- `canInstall` of App.tsx line 48: installable, not yet installed, and every
dependency`s record reports installed (a missing record is falsy). -/
def canInstall (mods : List ModRecord) (m : ModRecord) : Bool :=
  m.installable && !m.installed && m.dependencies.all fun d =>
    match modByKey mods d with
    | some x => x.installed
    | none => false

/-- `canEnable` of App.tsx line 51: installed, not yet enabled, and every
dependency`s record reports enabled. -/
def canEnable (mods : List ModRecord) (m : ModRecord) : Bool :=
  m.installed && !m.enabled && m.dependencies.all fun d =>
    match modByKey mods d with
    | some x => x.enabled
    | none => false

/-- JavaScript double-negation truthiness of `busyKey : string | null`:
null and the empty string are falsy. -/
def jsTruthy : Option String → Bool
  | none => false
  | some s => !(s == "")

/-- A rendered button: its label and its disabled flag. -/
structure ButtonView where
  label : String
  disabled : Bool
deriving Repr, DecidableEq

/-- The Refresh button of App.tsx line 132: disabled={!!busyKey}. -/
def refreshButton (busyKey : Option String) : ButtonView :=
  { label := "Refresh", disabled := jsTruthy busyKey }

/-- The per-module action buttons of App.tsx lines 164-192: Install, Enable,
Disable, and one Seed button per declared seeder. -/
def moduleButtons (busyKey : Option String) (mods : List ModRecord) (m : ModRecord) : List ButtonView :=
  [{ label := "Install", disabled := jsTruthy busyKey || !canInstall mods m },
   { label := "Enable", disabled := jsTruthy busyKey || !canEnable mods m },
   { label := "Disable", disabled := jsTruthy busyKey || !m.enabled }]
  ++ m.seeders.map fun s =>
    { label := "Seed: " ++ s, disabled := jsTruthy busyKey || !m.enabled || !m.installed }

/-- Every action control the dashboard renders: Refresh plus each module row`s
buttons. -/
def renderedControls (busyKey : Option String) (mods : List ModRecord) : List ButtonView :=
  refreshButton busyKey :: (mods.map (moduleButtons busyKey mods)).flatten

/-- A fetch response as the api helper of App.tsx sees it: ok flag, body text,
status text. -/
structure HttpResponse where
  ok : Bool
  bodyText : String
  statusText : String
deriving Repr, DecidableEq

/-- JavaScript `a || b` on strings: the empty string is falsy. -/
def jsOrString (a b : String) : String := if a = "" then b else a

/-- The message the api helper of App.tsx lines 15-25 throws for a response:
none when res.ok, otherwise `text || res.statusText`. -/
def apiReject (r : HttpResponse) : Option String :=
  if r.ok then none else some (jsOrString r.bodyText r.statusText)

/-- JavaScript String(e) for an Error with message msg. -/
def stringOfJsError (msg : String) : String :=
  if msg = "" then "Error" else "Error: " ++ msg

/-- The string the action handlers store via setError(e.message || String(e))
and that the error box renders verbatim (App.tsx lines 126-130). -/
def renderedError (msg : String) : String :=
  jsOrString msg (stringOfJsError msg)

/-- One observable step of an App.tsx action handler. -/
inductive UiEvent where
  | setBusy (v : Option String)
  | clearErr
  | showErr (msg : String)
  | request (path : String)
  | refreshCall
deriving Repr, DecidableEq

/-- The event sequence of one App.tsx action handler: set busyKey, clear the
error, issue the request, then on success refresh, on failure show the error;
the finally block clears busyKey last.  `outcome` is none on success and the
caught message on failure. -/
def actionTrace (busyVal : String) (path : String) (outcome : Option String) : List UiEvent :=
  [.setBusy (some busyVal), .clearErr, .request path]
  ++ (match outcome with
      | none => [.refreshCall]
      | some msg => [.showErr msg])
  ++ [.setBusy none]

/-- The install handler of App.tsx: busyKey is the module key. -/
def installTrace (key : String) (outcome : Option String) : List UiEvent :=
  actionTrace key ("/admin/modules/" ++ key ++ "/install") outcome

/-- The enable handler of App.tsx. -/
def enableTrace (key : String) (outcome : Option String) : List UiEvent :=
  actionTrace key ("/admin/modules/" ++ key ++ "/enable") outcome

/-- The disable handler of App.tsx. -/
def disableTrace (key : String) (outcome : Option String) : List UiEvent :=
  actionTrace key ("/admin/modules/" ++ key ++ "/disable") outcome

/-- The upgrade handler of App.tsx: busyKey is upgrade: followed by the key. -/
def upgradeTrace (key : String) (outcome : Option String) : List UiEvent :=
  actionTrace ("upgrade:" ++ key) ("/admin/modules/" ++ key ++ "/upgrade") outcome

/-- The seed handler of App.tsx: busyKey is key:seedKey. -/
def seedTrace (key : String) (seedKey : String) (outcome : Option String) : List UiEvent :=
  actionTrace (key ++ ":" ++ seedKey)
    ("/admin/modules/" ++ key ++ "/seed/" ++ seedKey) outcome

/-! Concrete fixtures used by witnesses and counterexamples: the two-module
catalog of spec section 8 (inventory with no dependencies, wms depending on
inventory). -/

/-- The inventory manifest of the scenario catalog. -/
def invManifest : ModuleManifest :=
  { module_key := "inventory", name := "Inventory", version := 2,
    dependencies := [], seeders := ["demo_items"], installable := true }

/-- The wms manifest of the scenario catalog: depends on inventory. -/
def wmsManifest : ModuleManifest :=
  { module_key := "wms", name := "WMS", version := 3,
    dependencies := ["inventory"], seeders := ["default_locations"], installable := true }

/-- Scenario catalog: inventory and wms. -/
def demoCatalog : Catalog := [invManifest, wmsManifest]

/-- The store of a fresh tenant: no rows. -/
def emptyStore : TenantState := fun _ => none

/-- Store with inventory and wms both installed and enabled at the packaged
versions. -/
def bothOnStore : TenantState := fun k =>
  if k = "inventory" then some { installed := true, installed_version := some 2, enabled := true }
  else if k = "wms" then some { installed := true, installed_version := some 3, enabled := true }
  else none

/-- Store with only inventory installed and enabled. -/
def invOnlyStore : TenantState := fun k =>
  if k = "inventory" then some { installed := true, installed_version := some 2, enabled := true }
  else none

/-- Store with inventory installed and enabled and wms installed but disabled,
wms still at version 2. -/
def wmsInstalledStore : TenantState := fun k =>
  if k = "inventory" then some { installed := true, installed_version := some 2, enabled := true }
  else if k = "wms" then some { installed := true, installed_version := some 2, enabled := false }
  else none

/-- The store that disabling inventory leaves behind from `bothOnStore`. -/
def afterDisableInv : TenantState :=
  setState bothOnStore "inventory"
    { getState bothOnStore "inventory" with enabled := false }

/-- The store that a successful Install of wms leaves behind from `invOnlyStore`. -/
def afterInstallWms : TenantState :=
  setState invOnlyStore "wms"
    { getState invOnlyStore "wms" with installed := true, installed_version := some 3 }

/-- The store that a successful Install of inventory leaves behind from the
empty store. -/
def afterInstallInv : TenantState :=
  setState emptyStore "inventory"
    { getState emptyStore "inventory" with installed := true, installed_version := some 2 }

/-- Store with inventory and wms both installed but neither enabled. -/
def depsOffStore : TenantState := fun k =>
  if k = "inventory" then some { installed := true, installed_version := some 2, enabled := false }
  else if k = "wms" then some { installed := true, installed_version := some 2, enabled := false }
  else none

/-- The store that a successful Upgrade of wms leaves behind from
`wmsInstalledStore`. -/
def afterUpgradeWms : TenantState :=
  setState wmsInstalledStore "wms"
    { getState wmsInstalledStore "wms" with installed_version := some 3 }

/-- A one-row module list as the dashboard would fetch it: inventory,
installable, not yet installed. -/
def demoMods : List ModRecord :=
  [{ module_key := "inventory", name := "Inventory", version := "2",
     dependencies := [], installed := false, enabled := false,
     installable := true, seeders := [], installed_version := none }]

/-- A handler trace is busy-clean when its final event clears busyKey and no
earlier event does: busyKey is cleared only after the request settles. -/
def busyCleanTrace (tr : List UiEvent) : Prop :=
  tr.getLast? = some (.setBusy none) ∧ ∀ e ∈ tr.dropLast, e ≠ .setBusy none

/-! Basic lemmas about the store and the catalog. -/

theorem getState_setState (st : TenantState) (key : String) (v : TenantModuleState)
    (k : String) : getState (setState st key v) k = if k = key then v else getState st k := by
  unfold getState setState
  by_cases h : k = key <;> simp [h]

theorem getState_setState_self (st : TenantState) (key : String) (v : TenantModuleState) :
    getState (setState st key v) key = v := by
  simp [getState_setState]

theorem getState_setState_other (st : TenantState) (key : String) (v : TenantModuleState)
    (k : String) (h : k ≠ key) : getState (setState st key v) k = getState st k := by
  simp [getState_setState, h]

theorem findManifest_mem {cat : Catalog} {key : String} {m : ModuleManifest}
    (h : findManifest cat key = some m) : m ∈ cat :=
  List.mem_of_find?_eq_some h

theorem findManifest_key {cat : Catalog} {key : String} {m : ModuleManifest}
    (h : findManifest cat key = some m) : m.module_key = key := by
  have := List.find?_some h
  simpa using this

theorem findManifest_unique {cat : Catalog} {key : String} {m₀ : ModuleManifest}
    (hkeys : (cat.map (fun m => m.module_key)).Nodup)
    (hfind : findManifest cat key = some m₀) :
    ∀ m ∈ cat, m.module_key = key → m = m₀ := by
  intro m hm hkey
  exact List.inj_on_of_nodup_map hkeys hm (findManifest_mem hfind)
    (hkey.trans (findManifest_key hfind).symm)

theorem missingInstalled_isEmpty_iff (st : TenantState) (m : ModuleManifest) :
    (missingInstalled st m).isEmpty = true ↔
      ∀ d ∈ m.dependencies, (getState st d).installed = true := by
  rw [List.isEmpty_iff]
  unfold missingInstalled
  rw [List.filter_eq_nil_iff]
  constructor
  · intro h d hd
    have := h d hd
    simpa using this
  · intro h d hd
    simpa using h d hd

theorem missingEnabled_isEmpty_iff (st : TenantState) (m : ModuleManifest) :
    (missingEnabled st m).isEmpty = true ↔
      ∀ d ∈ m.dependencies, (getState st d).enabled = true := by
  rw [List.isEmpty_iff]
  unfold missingEnabled
  rw [List.filter_eq_nil_iff]
  constructor
  · intro h d hd
    have := h d hd
    simpa using this
  · intro h d hd
    simpa using h d hd

theorem mem_missingInstalled_iff (st : TenantState) (m : ModuleManifest) (d : String) :
    d ∈ missingInstalled st m ↔ d ∈ m.dependencies ∧ (getState st d).installed = false := by
  unfold missingInstalled
  simp [List.mem_filter]

theorem mem_missingEnabled_iff (st : TenantState) (m : ModuleManifest) (d : String) :
    d ∈ missingEnabled st m ↔ d ∈ m.dependencies ∧ (getState st d).enabled = false := by
  unfold missingEnabled
  simp [List.mem_filter]

theorem installOp_eq {cat : Catalog} {key : String} {m : ModuleManifest}
    (st : TenantState) (hfind : findManifest cat key = some m) :
    installOp cat st key =
      if m.installable then
        if (missingInstalled st m).isEmpty then
          if (getState st key).installed then .ok st
          else .ok (setState st key
            { getState st key with installed := true, installed_version := some m.version })
        else .error (.DependencyNotInstalled (missingInstalled st m))
      else .error .NotInstallable := by
  unfold installOp
  rw [hfind]

theorem enableOp_eq {cat : Catalog} {key : String} {m : ModuleManifest}
    (st : TenantState) (hfind : findManifest cat key = some m) :
    enableOp cat st key =
      if (getState st key).installed then
        if (missingEnabled st m).isEmpty then
          if (getState st key).enabled then .ok st
          else .ok (setState st key { getState st key with enabled := true })
        else .error (.DependencyNotEnabled (missingEnabled st m))
      else .error .NotInstalled := by
  unfold enableOp
  rw [hfind]

theorem disableOp_eq {cat : Catalog} {key : String} {m : ModuleManifest}
    (st : TenantState) (hfind : findManifest cat key = some m) :
    disableOp cat st key =
      if (getState st key).enabled then
        .ok (setState st key { getState st key with enabled := false })
      else .ok st := by
  unfold disableOp
  rw [hfind]

theorem upgradeOp_eq {cat : Catalog} {key : String} {m : ModuleManifest}
    (st : TenantState) (migOk : Bool) (hfind : findManifest cat key = some m) :
    upgradeOp cat st key migOk =
      if (getState st key).installed then
        if (getState st key).installed_version = some m.version then .ok st
        else if migOk then
          .ok (setState st key { getState st key with installed_version := some m.version })
        else .error .MigrationFailed
      else .error .NotInstalled := by
  unfold upgradeOp
  rw [hfind]

theorem seedOp_eq {cat : Catalog} {key : String} {m : ModuleManifest}
    (st : TenantState) (seedKey : String) (seedOk : Bool)
    (hfind : findManifest cat key = some m) :
    seedOp cat st key seedKey seedOk =
      if m.seeders.contains seedKey then
        if (getState st key).installed && (getState st key).enabled then
          if seedOk then .ok st else .error .SeedFailed
        else .error .NotEnabled
      else .error .UnknownSeeder := by
  unfold seedOp
  rw [hfind]

/-! Shape of successful operations. -/

theorem installOp_ok {cat : Catalog} {st : TenantState} {key : String} {st' : TenantState}
    (h : installOp cat st key = .ok st') :
    ∃ m, findManifest cat key = some m ∧ m.installable = true ∧
      (∀ d ∈ m.dependencies, (getState st d).installed = true) ∧
      ((getState st key).installed = true ∧ st' = st ∨
       (getState st key).installed = false ∧
         st' = setState st key
           { getState st key with installed := true, installed_version := some m.version }) := by
  cases hfind : findManifest cat key with
  | none => unfold installOp at h; rw [hfind] at h; exact absurd h (by simp)
  | some m =>
    rw [installOp_eq st hfind] at h
    refine ⟨m, rfl, ?_⟩
    by_cases hi : m.installable = true
    · rw [if_pos hi] at h
      by_cases hmiss : (missingInstalled st m).isEmpty = true
      · rw [if_pos hmiss] at h
        refine ⟨hi, (missingInstalled_isEmpty_iff st m).mp hmiss, ?_⟩
        by_cases hinst : (getState st key).installed = true
        · rw [if_pos hinst] at h
          exact Or.inl ⟨hinst, (Except.ok.inj h).symm⟩
        · rw [if_neg hinst] at h
          exact Or.inr ⟨Bool.eq_false_iff.mpr hinst, (Except.ok.inj h).symm⟩
      · rw [if_neg hmiss] at h
        exact absurd h (by simp)
    · rw [if_neg hi] at h
      exact absurd h (by simp)

theorem enableOp_ok {cat : Catalog} {st : TenantState} {key : String} {st' : TenantState}
    (h : enableOp cat st key = .ok st') :
    ∃ m, findManifest cat key = some m ∧ (getState st key).installed = true ∧
      (∀ d ∈ m.dependencies, (getState st d).enabled = true) ∧
      ((getState st key).enabled = true ∧ st' = st ∨
       (getState st key).enabled = false ∧
         st' = setState st key { getState st key with enabled := true }) := by
  cases hfind : findManifest cat key with
  | none => unfold enableOp at h; rw [hfind] at h; exact absurd h (by simp)
  | some m =>
    rw [enableOp_eq st hfind] at h
    refine ⟨m, rfl, ?_⟩
    by_cases hinst : (getState st key).installed = true
    · rw [if_pos hinst] at h
      by_cases hmiss : (missingEnabled st m).isEmpty = true
      · rw [if_pos hmiss] at h
        refine ⟨hinst, (missingEnabled_isEmpty_iff st m).mp hmiss, ?_⟩
        by_cases hen : (getState st key).enabled = true
        · rw [if_pos hen] at h
          exact Or.inl ⟨hen, (Except.ok.inj h).symm⟩
        · rw [if_neg hen] at h
          exact Or.inr ⟨Bool.eq_false_iff.mpr hen, (Except.ok.inj h).symm⟩
      · rw [if_neg hmiss] at h
        exact absurd h (by simp)
    · rw [if_neg hinst] at h
      exact absurd h (by simp)

theorem disableOp_ok {cat : Catalog} {st : TenantState} {key : String} {st' : TenantState}
    (h : disableOp cat st key = .ok st') :
    ∃ m, findManifest cat key = some m ∧
      ((getState st key).enabled = true ∧
         st' = setState st key { getState st key with enabled := false } ∨
       (getState st key).enabled = false ∧ st' = st) := by
  cases hfind : findManifest cat key with
  | none => unfold disableOp at h; rw [hfind] at h; exact absurd h (by simp)
  | some m =>
    rw [disableOp_eq st hfind] at h
    refine ⟨m, rfl, ?_⟩
    by_cases hen : (getState st key).enabled = true
    · rw [if_pos hen] at h
      exact Or.inl ⟨hen, (Except.ok.inj h).symm⟩
    · rw [if_neg hen] at h
      exact Or.inr ⟨Bool.eq_false_iff.mpr hen, (Except.ok.inj h).symm⟩

theorem upgradeOp_ok {cat : Catalog} {st : TenantState} {key : String} {migOk : Bool}
    {st' : TenantState} (h : upgradeOp cat st key migOk = .ok st') :
    ∃ m, findManifest cat key = some m ∧ (getState st key).installed = true ∧
      ((getState st key).installed_version = some m.version ∧ st' = st ∨
       (getState st key).installed_version ≠ some m.version ∧ migOk = true ∧
         st' = setState st key
           { getState st key with installed_version := some m.version }) := by
  cases hfind : findManifest cat key with
  | none => unfold upgradeOp at h; rw [hfind] at h; exact absurd h (by simp)
  | some m =>
    rw [upgradeOp_eq st migOk hfind] at h
    refine ⟨m, rfl, ?_⟩
    by_cases hinst : (getState st key).installed = true
    · rw [if_pos hinst] at h
      refine ⟨hinst, ?_⟩
      by_cases hver : (getState st key).installed_version = some m.version
      · rw [if_pos hver] at h
        exact Or.inl ⟨hver, (Except.ok.inj h).symm⟩
      · rw [if_neg hver] at h
        cases hmig : migOk with
        | true =>
          rw [hmig, if_pos rfl] at h
          exact Or.inr ⟨hver, rfl, (Except.ok.inj h).symm⟩
        | false =>
          rw [hmig] at h
          exact absurd h (by simp)
    · rw [if_neg hinst] at h
      exact absurd h (by simp)

theorem seedOp_ok {cat : Catalog} {st : TenantState} {key seedKey : String} {seedOk : Bool}
    {st' : TenantState} (h : seedOp cat st key seedKey seedOk = .ok st') : st' = st := by
  cases hfind : findManifest cat key with
  | none => unfold seedOp at h; rw [hfind] at h; exact absurd h (by simp)
  | some m =>
    rw [seedOp_eq st seedKey seedOk hfind] at h
    by_cases hs : m.seeders.contains seedKey = true
    · rw [if_pos hs] at h
      by_cases hie : ((getState st key).installed && (getState st key).enabled) = true
      · rw [if_pos hie] at h
        cases hseed : seedOk with
        | true => rw [hseed, if_pos rfl] at h; exact (Except.ok.inj h).symm
        | false => rw [hseed] at h; exact absurd h (by simp)
      · rw [if_neg hie] at h
        exact absurd h (by simp)
    · rw [if_neg hs] at h
      exact absurd h (by simp)

/-! Preservation of the tenant-module invariant. -/

theorem install_preserves_StateInv {cat : Catalog} {st st' : TenantState} {key : String}
    (hkeys : (cat.map fun m => m.module_key).Nodup)
    (hinv : StateInv cat st) (h : installOp cat st key = .ok st') : StateInv cat st' := by
  obtain ⟨m₀, hfind, _, hdeps, hcase⟩ := installOp_ok h
  rcases hcase with ⟨_, rfl⟩ | ⟨_, rfl⟩
  · exact hinv
  · have hen : ∀ k, (getState (setState st key
        { getState st key with installed := true, installed_version := some m₀.version }) k).enabled
        = (getState st k).enabled := by
      intro k
      rw [getState_setState]
      split
      · next hk => subst hk; rfl
      · rfl
    have hinstmono : ∀ k, (getState st k).installed = true →
        (getState (setState st key
          { getState st key with installed := true, installed_version := some m₀.version }) k).installed
          = true := by
      intro k hk
      rw [getState_setState]
      split
      · rfl
      · exact hk
    have hinstkey : (getState (setState st key
        { getState st key with installed := true, installed_version := some m₀.version }) key).installed
        = true := by
      rw [getState_setState_self]
    intro m hm
    refine ⟨?_, ?_, ?_⟩
    · intro _
      by_cases hk : m.module_key = key
      · rw [hk]
        exact hinstkey
      · rw [getState_setState_other st key _ _ hk] at *
        exact (hinv m hm).1 (by rw [← hen m.module_key, getState_setState_other st key _ _ hk]; assumption)
    · intro he d hd
      rw [hen]
      rw [hen] at he
      exact (hinv m hm).2.1 he d hd
    · intro hi d hd
      by_cases hk : m.module_key = key
      · have hm0 : m = m₀ := findManifest_unique hkeys hfind m hm hk
        exact hinstmono d (hdeps d (hm0 ▸ hd))
      · rw [getState_setState_other st key _ _ hk] at hi
        exact hinstmono d ((hinv m hm).2.2 hi d hd)

theorem enable_preserves_StateInv {cat : Catalog} {st st' : TenantState} {key : String}
    (hkeys : (cat.map fun m => m.module_key).Nodup)
    (hinv : StateInv cat st) (h : enableOp cat st key = .ok st') : StateInv cat st' := by
  obtain ⟨m₀, hfind, hinst, hdeps, hcase⟩ := enableOp_ok h
  rcases hcase with ⟨_, rfl⟩ | ⟨_, rfl⟩
  · exact hinv
  · have hins : ∀ k, (getState (setState st key
        { getState st key with enabled := true }) k).installed = (getState st k).installed := by
      intro k
      rw [getState_setState]
      split
      · next hk => subst hk; rfl
      · rfl
    have henmono : ∀ k, (getState st k).enabled = true →
        (getState (setState st key { getState st key with enabled := true }) k).enabled = true := by
      intro k hk
      rw [getState_setState]
      split
      · rfl
      · exact hk
    intro m hm
    refine ⟨?_, ?_, ?_⟩
    · intro _
      by_cases hk : m.module_key = key
      · rw [hins, hk]
        exact hinst
      · have he : (getState (setState st key
            { getState st key with enabled := true }) m.module_key).enabled
            = (getState st m.module_key).enabled := by
          rw [getState_setState_other st key _ _ hk]
        rw [hins]
        exact (hinv m hm).1 (by rw [← he]; assumption)
    · intro he d hd
      by_cases hk : m.module_key = key
      · have hm0 : m = m₀ := findManifest_unique hkeys hfind m hm hk
        exact henmono d (hdeps d (hm0 ▸ hd))
      · rw [getState_setState_other st key _ _ hk] at he
        exact henmono d ((hinv m hm).2.1 he d hd)
    · intro hi d hd
      rw [hins] at hi
      rw [hins]
      exact (hinv m hm).2.2 hi d hd

theorem disable_preserves_WeakInv {cat : Catalog} {st st' : TenantState} {key : String}
    (hinv : StateInv cat st) (h : disableOp cat st key = .ok st') : WeakInv cat st' := by
  obtain ⟨m₀, hfind, hcase⟩ := disableOp_ok h
  rcases hcase with ⟨_, rfl⟩ | ⟨_, rfl⟩
  · have hins : ∀ k, (getState (setState st key
        { getState st key with enabled := false }) k).installed = (getState st k).installed := by
      intro k
      rw [getState_setState]
      split
      · next hk => subst hk; rfl
      · rfl
    intro m hm
    refine ⟨?_, ?_⟩
    · intro he
      by_cases hk : m.module_key = key
      · rw [hins]
        rw [hk] at he ⊢
        rw [getState_setState_self] at he
        exact absurd he (by simp)
      · rw [getState_setState_other st key _ _ hk] at he
        rw [hins]
        exact (hinv m hm).1 he
    · intro hi d hd
      rw [hins] at hi
      rw [hins]
      exact (hinv m hm).2.2 hi d hd
  · intro m hm
    exact ⟨(hinv m hm).1, (hinv m hm).2.2⟩

theorem upgrade_preserves_StateInv {cat : Catalog} {st st' : TenantState} {key : String}
    {migOk : Bool} (hinv : StateInv cat st) (h : upgradeOp cat st key migOk = .ok st') :
    StateInv cat st' := by
  obtain ⟨m₀, hfind, hinst, hcase⟩ := upgradeOp_ok h
  rcases hcase with ⟨_, rfl⟩ | ⟨_, _, rfl⟩
  · exact hinv
  · have hins : ∀ k, (getState (setState st key
        { getState st key with installed_version := some m₀.version }) k).installed
        = (getState st k).installed := by
      intro k
      rw [getState_setState]
      split
      · next hk => subst hk; rfl
      · rfl
    have hen : ∀ k, (getState (setState st key
        { getState st key with installed_version := some m₀.version }) k).enabled
        = (getState st k).enabled := by
      intro k
      rw [getState_setState]
      split
      · next hk => subst hk; rfl
      · rfl
    intro m hm
    refine ⟨?_, ?_, ?_⟩
    · intro he
      rw [hen] at he
      rw [hins]
      exact (hinv m hm).1 he
    · intro he d hd
      rw [hen] at he
      rw [hen]
      exact (hinv m hm).2.1 he d hd
    · intro hi d hd
      rw [hins] at hi
      rw [hins]
      exact (hinv m hm).2.2 hi d hd

theorem seed_preserves_StateInv {cat : Catalog} {st st' : TenantState} {key seedKey : String}
    {seedOk : Bool} (hinv : StateInv cat st)
    (h : seedOp cat st key seedKey seedOk = .ok st') : StateInv cat st' := by
  rw [seedOp_ok h]
  exact hinv

/-! Claim C1. -/

/-- C1 counterexample: the claim fails for Disable.  From a state satisfying
the invariant with inventory and wms both installed and enabled, disabling
inventory succeeds and leaves wms enabled while its dependency inventory is
disabled, so the enabled-dependency invariant no longer holds. -/
theorem erp_c1_counterexample :
    StateInv demoCatalog bothOnStore
    ∧ disableOp demoCatalog bothOnStore "inventory" = .ok afterDisableInv
    ∧ ¬ StateInv demoCatalog afterDisableInv :=
  ⟨by decide, rfl, by decide⟩

/-- C1 (amended): after any successful Install, Enable, Upgrade or Seed the
full tenant-module invariant holds (enabled implies installed, enabled implies
every dependency enabled, installed implies every dependency installed),
provided it held before and manifest keys are unique; a successful Disable
preserves enabled-implies-installed and installed-implies-dependencies-installed,
but may leave a dependent module enabled while its dependency is disabled. -/
theorem erp_c1_invariant_preservation (cat : Catalog) (st : TenantState)
    (key seedKey : String) (migOk seedOk : Bool)
    (hkeys : (cat.map fun m => m.module_key).Nodup)
    (hinv : StateInv cat st) :
    (∀ st', installOp cat st key = .ok st' → StateInv cat st')
    ∧ (∀ st', enableOp cat st key = .ok st' → StateInv cat st')
    ∧ (∀ st', upgradeOp cat st key migOk = .ok st' → StateInv cat st')
    ∧ (∀ st', seedOp cat st key seedKey seedOk = .ok st' → StateInv cat st')
    ∧ (∀ st', disableOp cat st key = .ok st' → WeakInv cat st') :=
  ⟨fun _ h => install_preserves_StateInv hkeys hinv h,
   fun _ h => enable_preserves_StateInv hkeys hinv h,
   fun _ h => upgrade_preserves_StateInv hinv h,
   fun _ h => seed_preserves_StateInv hinv h,
   fun _ h => disable_preserves_WeakInv hinv h⟩

/-- C1 witness: on the scenario catalog, from the invariant-satisfying store
with inventory installed and enabled, a successful Install of wms preserves the
invariant. -/
theorem erp_c1_witness :
    (demoCatalog.map fun m => m.module_key).Nodup
    ∧ StateInv demoCatalog invOnlyStore
    ∧ StateInv demoCatalog afterInstallWms :=
  ⟨by decide, by decide,
   (erp_c1_invariant_preservation demoCatalog invOnlyStore "wms" "default_locations"
      true true (by decide) (by decide)).1 afterInstallWms rfl⟩

/-! Claim C2. -/

/-- C2: a business request under module `key` proceeds to the handler if and
only if the route exists and the tenant row has enabled = true; a disabled or
absent row is answered not-found exactly like a nonexistent route, and the gate
never answers forbidden. -/
theorem erp_c2_gate_consistency (routes : List String) (st : TenantState) (key : String) :
    (businessRequest routes st key = .proceed ↔
      routes.contains key = true ∧ (getState st key).enabled = true)
    ∧ ((getState st key).enabled = false → businessRequest routes st key = .notFound)
    ∧ (st key = none → businessRequest routes st key = .notFound)
    ∧ (routes.contains key = false → businessRequest routes st key = .notFound)
    ∧ businessRequest routes st key ≠ .forbidden := by
  unfold businessRequest requestGate
  by_cases hr : routes.contains key = true
  · rw [if_pos hr]
    by_cases he : (getState st key).enabled = true
    · rw [if_pos he]
      refine ⟨⟨fun _ => ⟨hr, he⟩, fun _ => rfl⟩, ?_, ?_, ?_, by simp⟩
      · intro hf
        rw [hf] at he
        exact absurd he (by simp)
      · intro habs
        rw [getState, habs] at he
        exact absurd he (by decide)
      · intro hf
        rw [hf] at hr
        exact absurd hr (by simp)
    · rw [if_neg he]
      exact ⟨⟨fun h => absurd h (by simp), fun ⟨_, h⟩ => absurd h he⟩,
        fun _ => rfl, fun _ => rfl, fun _ => rfl, by simp⟩
  · rw [if_neg hr]
    exact ⟨⟨fun h => absurd h (by simp), fun ⟨h, _⟩ => absurd h hr⟩,
      fun _ => rfl, fun _ => rfl, fun _ => rfl, by simp⟩

/-- C2 witness: with inventory and wms routes mounted and only inventory
enabled, a request to wms is answered not-found while a request to inventory
proceeds. -/
theorem erp_c2_witness :
    (getState invOnlyStore "wms").enabled = false
    ∧ businessRequest ["inventory", "wms"] invOnlyStore "wms" = .notFound
    ∧ businessRequest ["inventory", "wms"] invOnlyStore "inventory" = .proceed :=
  ⟨by decide,
   (erp_c2_gate_consistency ["inventory", "wms"] invOnlyStore "wms").2.1 (by decide),
   (erp_c2_gate_consistency ["inventory", "wms"] invOnlyStore "inventory").1.mpr
     ⟨by decide, by decide⟩⟩

/-! Claim C3. -/

/-- C3: for a catalog module whose manifest permits install, Install fails with
DependencyNotInstalled whenever some direct dependency is not installed; the
error carries exactly the direct dependencies whose tenant row is not installed
(a single pass over the declared dependency list, no transitive closure). -/
theorem erp_c3_install_dependency_check (cat : Catalog) (st : TenantState) (key : String)
    (m : ModuleManifest) (hfind : findManifest cat key = some m)
    (hinstallable : m.installable = true)
    (hmiss : ∃ d ∈ m.dependencies, (getState st d).installed = false) :
    installOp cat st key = .error (.DependencyNotInstalled (missingInstalled st m))
    ∧ missingInstalled st m ≠ []
    ∧ (∀ d, d ∈ missingInstalled st m ↔
        d ∈ m.dependencies ∧ (getState st d).installed = false) := by
  obtain ⟨d, hd, hdinst⟩ := hmiss
  have hne : missingInstalled st m ≠ [] := by
    intro hnil
    have : d ∈ missingInstalled st m := (mem_missingInstalled_iff st m d).mpr ⟨hd, hdinst⟩
    rw [hnil] at this
    exact absurd this (by simp)
  have hempty : (missingInstalled st m).isEmpty ≠ true := by
    intro h
    exact hne (List.isEmpty_iff.mp h)
  refine ⟨?_, hne, fun d => mem_missingInstalled_iff st m d⟩
  rw [installOp_eq st hfind, if_pos hinstallable, if_neg hempty]

/-- C3 witness: scenario 1 of spec section 8: installing wms on a fresh tenant
before inventory fails with DependencyNotInstalled listing inventory. -/
theorem erp_c3_witness :
    installOp demoCatalog emptyStore "wms"
      = .error (.DependencyNotInstalled (missingInstalled emptyStore wmsManifest))
    ∧ missingInstalled emptyStore wmsManifest = ["inventory"] :=
  ⟨(erp_c3_install_dependency_check demoCatalog emptyStore "wms" wmsManifest rfl rfl
      (by decide)).1,
   by decide⟩

/-! Claim C4. -/

/-- C4: for a known module, Enable fails with NotInstalled whenever the tenant
row has installed = false; for an installed module it fails with
DependencyNotEnabled carrying exactly the direct dependencies whose row is not
enabled, whenever one exists; and on success it sets enabled = true and nothing
else: installed and installed_version of the module are unchanged and every
other module row is unchanged. -/
theorem erp_c4_enable_checks (cat : Catalog) (st : TenantState) (key : String)
    (m : ModuleManifest) (hfind : findManifest cat key = some m) :
    ((getState st key).installed = false → enableOp cat st key = .error .NotInstalled)
    ∧ ((getState st key).installed = true →
        (∃ d ∈ m.dependencies, (getState st d).enabled = false) →
        enableOp cat st key = .error (.DependencyNotEnabled (missingEnabled st m))
        ∧ (∀ d, d ∈ missingEnabled st m ↔
            d ∈ m.dependencies ∧ (getState st d).enabled = false))
    ∧ (∀ st', enableOp cat st key = .ok st' →
        (getState st' key).enabled = true
        ∧ (getState st' key).installed = (getState st key).installed
        ∧ (getState st' key).installed_version = (getState st key).installed_version
        ∧ ∀ k, k ≠ key → getState st' k = getState st k) := by
  refine ⟨?_, ?_, ?_⟩
  · intro hninst
    rw [enableOp_eq st hfind, if_neg (by rw [hninst]; simp)]
  · intro hinst hmiss
    obtain ⟨d, hd, hden⟩ := hmiss
    have hempty : (missingEnabled st m).isEmpty ≠ true := by
      intro h
      have hnil := List.isEmpty_iff.mp h
      have : d ∈ missingEnabled st m := (mem_missingEnabled_iff st m d).mpr ⟨hd, hden⟩
      rw [hnil] at this
      exact absurd this (by simp)
    refine ⟨?_, fun d => mem_missingEnabled_iff st m d⟩
    rw [enableOp_eq st hfind, if_pos hinst, if_neg hempty]
  · intro st' h
    obtain ⟨m₀, _, hinst, _, hcase⟩ := enableOp_ok h
    rcases hcase with ⟨hen, rfl⟩ | ⟨_, rfl⟩
    · exact ⟨hen, rfl, rfl, fun _ _ => rfl⟩
    · refine ⟨?_, ?_, ?_, ?_⟩
      · rw [getState_setState_self]
      · rw [getState_setState_self]
      · rw [getState_setState_self]
      · intro k hk
        exact getState_setState_other st key _ k hk

/-- C4 witness: enabling wms while it is not installed fails with NotInstalled;
scenario 2 of spec section 8: enabling wms installed but with inventory disabled
fails with DependencyNotEnabled listing inventory; enabling wms with inventory
enabled succeeds and only flips the enabled flag. -/
theorem erp_c4_witness :
    enableOp demoCatalog invOnlyStore "wms" = .error .NotInstalled
    ∧ enableOp demoCatalog depsOffStore "wms"
        = .error (.DependencyNotEnabled (missingEnabled depsOffStore wmsManifest))
    ∧ missingEnabled depsOffStore wmsManifest = ["inventory"]
    ∧ (getState (setState wmsInstalledStore "wms"
        { getState wmsInstalledStore "wms" with enabled := true }) "wms").installed = true :=
  ⟨(erp_c4_enable_checks demoCatalog invOnlyStore "wms" wmsManifest rfl).1 (by decide),
   ((erp_c4_enable_checks demoCatalog depsOffStore "wms" wmsManifest rfl).2.1
      (by decide) (by decide)).1,
   by decide,
   by
    have h := (erp_c4_enable_checks demoCatalog wmsInstalledStore "wms" wmsManifest rfl).2.2
      (setState wmsInstalledStore "wms"
        { getState wmsInstalledStore "wms" with enabled := true }) rfl
    rw [h.2.1]
    decide⟩

/-! Claim C5. -/

/-- C5: Install, Enable and Disable are idempotent: a second call right after a
successful call succeeds and returns the same store; Install on an
already-installed module (manifest installable, dependencies installed) returns
the current store unchanged, and Disable on an already-disabled or
never-installed module is a no-op success. -/
theorem erp_c5_idempotence (cat : Catalog) (st : TenantState) (key : String)
    (m : ModuleManifest) (hfind : findManifest cat key = some m) :
    (∀ st₁, installOp cat st key = .ok st₁ → installOp cat st₁ key = .ok st₁)
    ∧ (∀ st₁, enableOp cat st key = .ok st₁ → enableOp cat st₁ key = .ok st₁)
    ∧ (∀ st₁, disableOp cat st key = .ok st₁ → disableOp cat st₁ key = .ok st₁)
    ∧ (m.installable = true → (∀ d ∈ m.dependencies, (getState st d).installed = true) →
        (getState st key).installed = true → installOp cat st key = .ok st)
    ∧ ((getState st key).enabled = false → disableOp cat st key = .ok st) := by
  refine ⟨?_, ?_, ?_, ?_, ?_⟩
  · intro st₁ h
    obtain ⟨m₀, hfind₀, hi, hdeps, hcase⟩ := installOp_ok h
    rcases hcase with ⟨_, rfl⟩ | ⟨_, rfl⟩
    · exact h
    · have hdeps₁ : ∀ d ∈ m₀.dependencies,
          (getState (setState st key { getState st key with installed := true, installed_version := some m₀.version }) d).installed = true := by
        intro d hd
        rw [getState_setState]
        split
        · rfl
        · exact hdeps d hd
      rw [installOp_eq _ hfind₀, if_pos hi,
        if_pos ((missingInstalled_isEmpty_iff _ m₀).mpr hdeps₁),
        if_pos (by rw [getState_setState_self])]
  · intro st₁ h
    obtain ⟨m₀, hfind₀, hinst, hdeps, hcase⟩ := enableOp_ok h
    rcases hcase with ⟨_, rfl⟩ | ⟨_, rfl⟩
    · exact h
    · have hdeps₁ : ∀ d ∈ m₀.dependencies, (getState (setState st key
          { getState st key with enabled := true }) d).enabled = true := by
        intro d hd
        rw [getState_setState]
        split
        · rfl
        · exact hdeps d hd
      rw [enableOp_eq _ hfind₀, if_pos (by rw [getState_setState_self]; exact hinst),
        if_pos ((missingEnabled_isEmpty_iff _ m₀).mpr hdeps₁),
        if_pos (by rw [getState_setState_self])]
  · intro st₁ h
    obtain ⟨m₀, hfind₀, hcase⟩ := disableOp_ok h
    rcases hcase with ⟨_, rfl⟩ | ⟨_, rfl⟩
    · rw [disableOp_eq _ hfind₀, if_neg (by rw [getState_setState_self]; simp)]
    · exact h
  · intro hi hdeps hinst
    rw [installOp_eq st hfind, if_pos hi,
      if_pos ((missingInstalled_isEmpty_iff st m).mpr hdeps), if_pos hinst]
  · intro hen
    rw [disableOp_eq st hfind, if_neg (by rw [hen]; simp)]

/-- C5 witness: a second Install of inventory right after a successful one is a
no-op success; Install on already-installed wms returns the store unchanged;
Disable of never-installed wms on a fresh tenant is a no-op success. -/
theorem erp_c5_witness :
    installOp demoCatalog afterInstallInv "inventory" = .ok afterInstallInv
    ∧ installOp demoCatalog wmsInstalledStore "wms" = .ok wmsInstalledStore
    ∧ disableOp demoCatalog emptyStore "wms" = .ok emptyStore :=
  ⟨(erp_c5_idempotence demoCatalog emptyStore "inventory" invManifest rfl).1
      afterInstallInv rfl,
   (erp_c5_idempotence demoCatalog wmsInstalledStore "wms" wmsManifest rfl).2.2.2.1
      rfl (by decide) (by decide),
   (erp_c5_idempotence demoCatalog emptyStore "wms" wmsManifest rfl).2.2.2.2 (by decide)⟩

/-! Claim C6. -/

/-- C6: Upgrade is atomic: when the Migration Runner fails, an out-of-date
installed module surfaces MigrationFailed, the only successful outcome with a
failing runner is the version-unchanged no-op, and the store after a failing-runner
upgrade is always the pre-upgrade store; on any successful upgrade the enabled
flag of every module is preserved. -/
theorem erp_c6_upgrade_atomicity (cat : Catalog) (st : TenantState) (key : String)
    (m : ModuleManifest) (hfind : findManifest cat key = some m) :
    ((getState st key).installed = true →
      (getState st key).installed_version ≠ some m.version →
      upgradeOp cat st key false = .error .MigrationFailed)
    ∧ (∀ st', upgradeOp cat st key false = .ok st' → st' = st)
    ∧ storeAfter st (upgradeOp cat st key false) = st
    ∧ (∀ migOk st', upgradeOp cat st key migOk = .ok st' →
        ∀ k, (getState st' k).enabled = (getState st k).enabled) := by
  have hfail : ∀ st', upgradeOp cat st key false = .ok st' → st' = st := by
    intro st' h
    obtain ⟨m₀, _, _, hcase⟩ := upgradeOp_ok h
    rcases hcase with ⟨_, rfl⟩ | ⟨_, hmig, _⟩
    · rfl
    · exact absurd hmig (by simp)
  refine ⟨?_, hfail, ?_, ?_⟩
  · intro hinst hver
    rw [upgradeOp_eq st false hfind, if_pos hinst, if_neg hver]
    simp
  · cases hres : upgradeOp cat st key false with
    | ok st' => rw [storeAfter, hfail st' hres]
    | error e => rw [storeAfter]
  · intro migOk st' h k
    obtain ⟨m₀, _, _, hcase⟩ := upgradeOp_ok h
    rcases hcase with ⟨_, rfl⟩ | ⟨_, _, rfl⟩
    · rfl
    · rw [getState_setState]
      split
      · next hk => subst hk; rfl
      · rfl

/-- C6 witness: wms installed at version 2 while the manifest packages
version 3: a failing migration surfaces MigrationFailed, the store is
unchanged, and a successful upgrade preserves the enabled flag of wms. -/
theorem erp_c6_witness :
    upgradeOp demoCatalog wmsInstalledStore "wms" false = .error .MigrationFailed
    ∧ storeAfter wmsInstalledStore (upgradeOp demoCatalog wmsInstalledStore "wms" false)
        = wmsInstalledStore
    ∧ (getState afterUpgradeWms "wms").enabled = (getState wmsInstalledStore "wms").enabled :=
  ⟨(erp_c6_upgrade_atomicity demoCatalog wmsInstalledStore "wms" wmsManifest rfl).1
      (by decide) (by decide),
   (erp_c6_upgrade_atomicity demoCatalog wmsInstalledStore "wms" wmsManifest rfl).2.2.1,
   (erp_c6_upgrade_atomicity demoCatalog wmsInstalledStore "wms" wmsManifest rfl).2.2.2
      true afterUpgradeWms rfl "wms"⟩

/-! Version order and preservation of the version invariant. -/

theorem verLe_refl (a : Option Nat) : verLe a a := by
  cases a <;> simp [verLe]

theorem verLe_trans {a b c : Option Nat} (h₁ : verLe a b) (h₂ : verLe b c) : verLe a c := by
  cases a with
  | none => trivial
  | some v =>
    cases b with
    | none => exact absurd h₁ (by simp [verLe])
    | some w =>
      cases c with
      | none => exact absurd h₂ (by simp [verLe])
      | some u => exact Nat.le_trans h₁ h₂

theorem VersionInv_congr {cat : Catalog} {st st' : TenantState}
    (h : ∀ k, (getState st' k).installed_version = (getState st k).installed_version
      ∧ (getState st' k).installed = (getState st k).installed)
    (hver : VersionInv cat st) : VersionInv cat st' := by
  intro m hm
  obtain ⟨hiv, hinst⟩ := h m.module_key
  rw [hiv, hinst]
  exact hver m hm

theorem applyOp_install_def (cat : Catalog) (st : TenantState) (key : String) :
    applyOp cat st (.install key) = storeAfter st (installOp cat st key) := rfl

theorem applyOp_enable_def (cat : Catalog) (st : TenantState) (key : String) :
    applyOp cat st (.enable key) = storeAfter st (enableOp cat st key) := rfl

theorem applyOp_disable_def (cat : Catalog) (st : TenantState) (key : String) :
    applyOp cat st (.disable key) = storeAfter st (disableOp cat st key) := rfl

theorem applyOp_upgrade_def (cat : Catalog) (st : TenantState) (key : String) (migOk : Bool) :
    applyOp cat st (.upgrade key migOk) = storeAfter st (upgradeOp cat st key migOk) := rfl

theorem applyOp_seed_def (cat : Catalog) (st : TenantState) (key seedKey : String)
    (seedOk : Bool) :
    applyOp cat st (.seed key seedKey seedOk) = storeAfter st (seedOp cat st key seedKey seedOk) := rfl

theorem applyOp_VersionInv {cat : Catalog} {st : TenantState} (op : EngineOp)
    (hkeys : (cat.map fun m => m.module_key).Nodup)
    (hver : VersionInv cat st) :
    VersionInv cat (applyOp cat st op)
    ∧ ∀ k, verLe (getState st k).installed_version
        (getState (applyOp cat st op) k).installed_version := by
  cases op with
  | install key =>
    rw [applyOp_install_def]
    cases hres : installOp cat st key with
    | error e => rw [storeAfter]; exact ⟨hver, fun k => verLe_refl _⟩
    | ok st' =>
      rw [storeAfter]
      obtain ⟨m₀, hfind, _, _, hcase⟩ := installOp_ok hres
      rcases hcase with ⟨_, rfl⟩ | ⟨hninst, rfl⟩
      · exact ⟨hver, fun k => verLe_refl _⟩
      · have hm₀ : m₀ ∈ cat := findManifest_mem hfind
        have hkey₀ : m₀.module_key = key := findManifest_key hfind
        have hnone : (getState st key).installed_version = none := by
          have := (hver m₀ hm₀).1
          rw [hkey₀] at this
          exact this.mpr hninst
        constructor
        · intro m hm
          by_cases hk : m.module_key = key
          · have hmeq : m = m₀ := findManifest_unique hkeys hfind m hm hk
            rw [hk, getState_setState_self]
            refine ⟨⟨fun h => absurd h (by simp), fun h => absurd h (by simp)⟩, ?_⟩
            intro v hv
            have : v = m₀.version := by
              have := hv
              simp at this
              omega
            rw [this, hmeq]
          · rw [getState_setState_other st key _ _ hk]
            exact hver m hm
        · intro k
          by_cases hk : k = key
          · rw [hk, hnone]
            exact trivial
          · rw [getState_setState_other st key _ _ hk]
            exact verLe_refl _
  | enable key =>
    rw [applyOp_enable_def]
    cases hres : enableOp cat st key with
    | error e => rw [storeAfter]; exact ⟨hver, fun k => verLe_refl _⟩
    | ok st' =>
      rw [storeAfter]
      obtain ⟨m₀, _, _, _, hcase⟩ := enableOp_ok hres
      rcases hcase with ⟨_, rfl⟩ | ⟨_, rfl⟩
      · exact ⟨hver, fun k => verLe_refl _⟩
      · have hpt : ∀ k, (getState (setState st key
            { getState st key with enabled := true }) k).installed_version
              = (getState st k).installed_version
            ∧ (getState (setState st key
            { getState st key with enabled := true }) k).installed
              = (getState st k).installed := by
          intro k
          rw [getState_setState]
          split
          · next hk => subst hk; exact ⟨rfl, rfl⟩
          · exact ⟨rfl, rfl⟩
        refine ⟨VersionInv_congr hpt hver, fun k => ?_⟩
        rw [(hpt k).1]
        exact verLe_refl _
  | disable key =>
    rw [applyOp_disable_def]
    cases hres : disableOp cat st key with
    | error e => rw [storeAfter]; exact ⟨hver, fun k => verLe_refl _⟩
    | ok st' =>
      rw [storeAfter]
      obtain ⟨m₀, _, hcase⟩ := disableOp_ok hres
      rcases hcase with ⟨_, rfl⟩ | ⟨_, rfl⟩
      · have hpt : ∀ k, (getState (setState st key
            { getState st key with enabled := false }) k).installed_version
              = (getState st k).installed_version
            ∧ (getState (setState st key
            { getState st key with enabled := false }) k).installed
              = (getState st k).installed := by
          intro k
          rw [getState_setState]
          split
          · next hk => subst hk; exact ⟨rfl, rfl⟩
          · exact ⟨rfl, rfl⟩
        refine ⟨VersionInv_congr hpt hver, fun k => ?_⟩
        rw [(hpt k).1]
        exact verLe_refl _
      · exact ⟨hver, fun k => verLe_refl _⟩
  | upgrade key migOk =>
    rw [applyOp_upgrade_def]
    cases hres : upgradeOp cat st key migOk with
    | error e => rw [storeAfter]; exact ⟨hver, fun k => verLe_refl _⟩
    | ok st' =>
      rw [storeAfter]
      obtain ⟨m₀, hfind, hinst, hcase⟩ := upgradeOp_ok hres
      rcases hcase with ⟨_, rfl⟩ | ⟨_, _, rfl⟩
      · exact ⟨hver, fun k => verLe_refl _⟩
      · have hm₀ : m₀ ∈ cat := findManifest_mem hfind
        have hkey₀ : m₀.module_key = key := findManifest_key hfind
        constructor
        · intro m hm
          by_cases hk : m.module_key = key
          · have hmeq : m = m₀ := findManifest_unique hkeys hfind m hm hk
            rw [hk, getState_setState_self]
            refine ⟨⟨fun h => absurd h (by simp), fun h => ?_⟩, ?_⟩
            · rw [show ({ getState st key with
                installed_version := some m₀.version } : TenantModuleState).installed
                  = (getState st key).installed from rfl, hinst] at h
              exact absurd h (by simp)
            · intro v hv
              have : v = m₀.version := by
                have := hv
                simp at this
                omega
              rw [this, hmeq]
          · rw [getState_setState_other st key _ _ hk]
            exact hver m hm
        · intro k
          by_cases hk : k = key
          · subst hk
            rw [getState_setState_self]
            cases hold : (getState st k).installed_version with
            | none => exact trivial
            | some w =>
              have hle : w ≤ m₀.version := by
                have := (hver m₀ hm₀).2 w
                rw [hkey₀] at this
                exact this hold
              simpa [verLe] using hle
          · rw [getState_setState_other st key _ _ hk]
            exact verLe_refl _
  | seed key seedKey seedOk =>
    rw [applyOp_seed_def]
    cases hres : seedOp cat st key seedKey seedOk with
    | error e => rw [storeAfter]; exact ⟨hver, fun k => verLe_refl _⟩
    | ok st' =>
      rw [storeAfter, seedOp_ok hres]
      exact ⟨hver, fun k => verLe_refl _⟩

theorem applyOps_VersionInv {cat : Catalog} (ops : List EngineOp) {st : TenantState}
    (hkeys : (cat.map fun m => m.module_key).Nodup)
    (hver : VersionInv cat st) :
    VersionInv cat (applyOps cat ops st)
    ∧ ∀ k, verLe (getState st k).installed_version
        (getState (applyOps cat ops st) k).installed_version := by
  induction ops generalizing st with
  | nil => exact ⟨hver, fun k => verLe_refl _⟩
  | cons op ops ih =>
    have hstep := applyOp_VersionInv op hkeys hver
    have hones : applyOps cat (op :: ops) st = applyOps cat ops (applyOp cat st op) := rfl
    have hrest := ih hstep.1
    rw [hones]
    exact ⟨hrest.1, fun k => verLe_trans (hstep.2 k) (hrest.2 k)⟩

theorem upgradeOp_ok_version {cat : Catalog} {st : TenantState} {key : String}
    {m : ModuleManifest} {migOk : Bool} {st' : TenantState}
    (hfind : findManifest cat key = some m)
    (h : upgradeOp cat st key migOk = .ok st') :
    (getState st' key).installed_version = some m.version := by
  obtain ⟨m₀, hfind₀, hinst, hcase⟩ := upgradeOp_ok h
  have hmeq : m₀ = m := by
    rw [hfind] at hfind₀
    exact (Option.some.inj hfind₀).symm
  subst hmeq
  rcases hcase with ⟨hv, rfl⟩ | ⟨_, _, rfl⟩
  · exact hv
  · rw [getState_setState_self]

theorem upgradeOp_repeat {cat : Catalog} {st : TenantState} {key : String}
    {m : ModuleManifest} {migOk : Bool} {st' : TenantState}
    (hfind : findManifest cat key = some m)
    (h : upgradeOp cat st key migOk = .ok st') :
    ∀ b, upgradeOp cat st' key b = .ok st' := by
  intro b
  have hver' := upgradeOp_ok_version hfind h
  have hinst' : (getState st' key).installed = true := by
    obtain ⟨m₀, _, hinst, hcase⟩ := upgradeOp_ok h
    rcases hcase with ⟨_, rfl⟩ | ⟨_, _, rfl⟩
    · exact hinst
    · rw [getState_setState_self]
      exact hinst
  rw [upgradeOp_eq st' b hfind, if_pos hinst', if_pos hver']

/-! Claim C7. -/

/-- C7: installed_version is monotone: across any sequence of engine operations
the version invariant is preserved (set iff installed, never exceeding the
packaged version), no module row`s installed_version ever decreases, and every
present version is bounded by its manifest version; after a successful Upgrade
the installed_version equals the manifest version, and an immediately repeated
Upgrade is a no-op success for every Migration Runner outcome (the runner is
not consulted). -/
theorem erp_c7_version_monotonicity (cat : Catalog) (ops : List EngineOp)
    (st : TenantState) (key : String) (m : ModuleManifest) (migOk : Bool)
    (hkeys : (cat.map fun m => m.module_key).Nodup)
    (hver : VersionInv cat st)
    (hfind : findManifest cat key = some m) :
    VersionInv cat (applyOps cat ops st)
    ∧ (∀ k, verLe (getState st k).installed_version
        (getState (applyOps cat ops st) k).installed_version)
    ∧ (∀ m' ∈ cat, ∀ v,
        (getState (applyOps cat ops st) m'.module_key).installed_version = some v →
        v ≤ m'.version)
    ∧ (∀ st', upgradeOp cat st key migOk = .ok st' →
        (getState st' key).installed_version = some m.version
        ∧ ∀ b, upgradeOp cat st' key b = .ok st') := by
  have hseq := applyOps_VersionInv ops hkeys hver
  refine ⟨hseq.1, hseq.2, ?_, ?_⟩
  · intro m' hm' v hv
    exact (hseq.1 m' hm').2 v hv
  · intro st' h
    exact ⟨upgradeOp_ok_version hfind h, upgradeOp_repeat hfind h⟩

/-- C7 witness: upgrading wms from version 2 to the packaged version 3 sets
installed_version to 3, an immediately repeated upgrade is a no-op success even
with a failing Migration Runner, and the version invariant holds after the
sequence. -/
theorem erp_c7_witness :
    VersionInv demoCatalog wmsInstalledStore
    ∧ upgradeOp demoCatalog wmsInstalledStore "wms" true = .ok afterUpgradeWms
    ∧ (getState afterUpgradeWms "wms").installed_version = some 3
    ∧ upgradeOp demoCatalog afterUpgradeWms "wms" false = .ok afterUpgradeWms
    ∧ VersionInv demoCatalog
        (applyOps demoCatalog [.upgrade "wms" true] wmsInstalledStore) :=
  ⟨by decide, rfl,
   ((erp_c7_version_monotonicity demoCatalog [.upgrade "wms" true] wmsInstalledStore
      "wms" wmsManifest true (by decide) (by decide) rfl).2.2.2
        afterUpgradeWms rfl).1,
   ((erp_c7_version_monotonicity demoCatalog [.upgrade "wms" true] wmsInstalledStore
      "wms" wmsManifest true (by decide) (by decide) rfl).2.2.2
        afterUpgradeWms rfl).2 false,
   (erp_c7_version_monotonicity demoCatalog [.upgrade "wms" true] wmsInstalledStore
      "wms" wmsManifest true (by decide) (by decide) rfl).1⟩

/-! Claim C8. -/

/-- C8: for a catalog module, Seed with a declared seed key fails with
NotEnabled whenever the tenant row is not both installed and enabled; Seed with
an undeclared seed key fails with UnknownSeeder; and the store after a Seed is
always the pre-seed store, for every Seed Runner outcome. -/
theorem erp_c8_seed_checks (cat : Catalog) (st : TenantState) (key seedKey : String)
    (m : ModuleManifest) (hfind : findManifest cat key = some m) :
    (m.seeders.contains seedKey = true →
      ((getState st key).installed && (getState st key).enabled) = false →
      ∀ b, seedOp cat st key seedKey b = .error .NotEnabled)
    ∧ (m.seeders.contains seedKey = false →
      ∀ b, seedOp cat st key seedKey b = .error .UnknownSeeder)
    ∧ (∀ b, storeAfter st (seedOp cat st key seedKey b) = st) := by
  refine ⟨?_, ?_, ?_⟩
  · intro hs hie b
    rw [seedOp_eq st seedKey b hfind, if_pos hs, if_neg (by rw [hie]; simp)]
  · intro hs b
    rw [seedOp_eq st seedKey b hfind, if_neg (by rw [hs]; simp)]
  · intro b
    cases hres : seedOp cat st key seedKey b with
    | ok st' => rw [storeAfter, seedOp_ok hres]
    | error e => rw [storeAfter]

/-- C8 witness: scenario 6 of spec section 8: seeding wms default_locations
while wms is installed but not enabled fails with NotEnabled; seeding an
undeclared key fails with UnknownSeeder; a failing Seed Runner leaves the store
unchanged. -/
theorem erp_c8_witness :
    seedOp demoCatalog wmsInstalledStore "wms" "default_locations" true
      = .error .NotEnabled
    ∧ seedOp demoCatalog bothOnStore "wms" "bogus" true = .error .UnknownSeeder
    ∧ storeAfter bothOnStore (seedOp demoCatalog bothOnStore "wms" "default_locations" false)
        = bothOnStore :=
  ⟨(erp_c8_seed_checks demoCatalog wmsInstalledStore "wms" "default_locations"
      wmsManifest rfl).1 (by decide) (by decide) true,
   (erp_c8_seed_checks demoCatalog bothOnStore "wms" "bogus" wmsManifest rfl).2.1
      (by decide) true,
   (erp_c8_seed_checks demoCatalog bothOnStore "wms" "default_locations"
      wmsManifest rfl).2.2 false⟩

/-! Claim C9. -/

/-- C9 counterexample: the claim fails at a non-OK response with empty body and
empty status text: the api helper rejects with the empty message, but the error
box renders the JavaScript string conversion of the Error object, the word
Error, not that empty string. -/
theorem erp_c9_counterexample :
    apiReject { ok := false, bodyText := "", statusText := "" } = some ""
    ∧ renderedError "" ≠ "" := by
  constructor
  · rfl
  · decide

/-- C9 (amended): for every non-OK response the api helper rejects with exactly
the body text, or the status text when the body is empty; the dashboard renders
that exact string whenever it is non-empty; when body and status text are both
empty the dashboard renders the string conversion of the Error object instead. -/
theorem erp_c9_error_rendering (r : HttpResponse) (msg : String) :
    (r.ok = false → apiReject r = some (jsOrString r.bodyText r.statusText))
    ∧ (r.ok = false → r.bodyText ≠ "" → apiReject r = some r.bodyText)
    ∧ (r.ok = false → r.bodyText = "" → apiReject r = some r.statusText)
    ∧ (msg ≠ "" → renderedError msg = msg)
    ∧ renderedError "" = "Error" := by
  refine ⟨?_, ?_, ?_, ?_, ?_⟩
  · intro hok
    rw [apiReject, if_neg (by rw [hok]; simp)]
  · intro hok hb
    rw [apiReject, if_neg (by rw [hok]; simp), jsOrString, if_neg hb]
  · intro hok hb
    rw [apiReject, if_neg (by rw [hok]; simp), jsOrString, if_pos hb]
  · intro hmsg
    rw [renderedError, jsOrString, if_neg hmsg]
  · rfl

/-- C9 witness: a conflict response with a non-empty body is rejected with
exactly the body text and rendered verbatim. -/
theorem erp_c9_witness :
    apiReject { ok := false, bodyText := "dependency not enabled: inventory",
                statusText := "Conflict" }
      = some "dependency not enabled: inventory"
    ∧ renderedError "dependency not enabled: inventory"
      = "dependency not enabled: inventory" :=
  ⟨(erp_c9_error_rendering
      { ok := false, bodyText := "dependency not enabled: inventory",
        statusText := "Conflict" } "").2.1 rfl (by decide),
   (erp_c9_error_rendering
      { ok := false, bodyText := "", statusText := "" }
      "dependency not enabled: inventory").2.2.2.1 (by decide)⟩

/-! Claim C10. -/

theorem actionTrace_busyClean (bv path : String) (outcome : Option String) :
    busyCleanTrace (actionTrace bv path outcome) := by
  cases outcome with
  | none =>
    refine ⟨rfl, ?_⟩
    intro e he
    have he' : e = .setBusy (some bv) ∨ e = .clearErr ∨ e = .request path
        ∨ e = .refreshCall := by
      simpa [actionTrace] using he
    rcases he' with rfl | rfl | rfl | rfl <;> simp
  | some msg =>
    refine ⟨rfl, ?_⟩
    intro e he
    have he' : e = .setBusy (some bv) ∨ e = .clearErr ∨ e = .request path
        ∨ e = .showErr msg := by
      simpa [actionTrace] using he
    rcases he' with rfl | rfl | rfl | rfl <;> simp

theorem renderedControls_disabled {busyKey : Option String} {s : String}
    (hb : busyKey = some s) (hs : s ≠ "") (mods : List ModRecord) :
    ∀ b ∈ renderedControls busyKey mods, b.disabled = true := by
  have ht : jsTruthy busyKey = true := by
    rw [hb]
    simp [jsTruthy, hs]
  intro b hbmem
  rw [renderedControls] at hbmem
  rcases List.mem_cons.mp hbmem with rfl | hbm
  · rw [refreshButton]
    exact ht
  · obtain ⟨l, hl, hbl⟩ := List.mem_flatten.mp hbm
    obtain ⟨m, _, rfl⟩ := List.mem_map.mp hl
    rw [moduleButtons] at hbl
    rcases List.mem_append.mp hbl with h3 | hseed
    · simp only [List.mem_cons, List.not_mem_nil, or_false] at h3
      rcases h3 with rfl | rfl | rfl <;> simp [ht]
    · obtain ⟨sdr, _, rfl⟩ := List.mem_map.mp hseed
      simp [ht]

/-- C10 counterexample: busyKey can be non-null yet falsy: with busyKey the
empty string (a module whose key is the empty string), !!busyKey is false and
the Install button of an installable module row is rendered enabled, so not
every action control is disabled while busyKey is non-null. -/
theorem erp_c10_counterexample :
    some "" ≠ (none : Option String)
    ∧ ¬ (∀ b ∈ renderedControls (some "") demoMods, b.disabled = true) := by
  constructor
  · decide
  · decide

/-- C10 (amended): whenever busyKey holds a non-empty key (the truthy case of
!!busyKey), every rendered action control — Refresh and each module row`s
Install, Enable, Disable and Seed buttons — is disabled; and every action
handler trace sets busyKey first, clears it exactly once, and only as its final
event, after the request settles. -/
theorem erp_c10_busy_discipline (busyKey : Option String) (s : String)
    (mods : List ModRecord) (key seedKey : String) (outcome : Option String) :
    (busyKey = some s → s ≠ "" → ∀ b ∈ renderedControls busyKey mods, b.disabled = true)
    ∧ busyCleanTrace (installTrace key outcome)
    ∧ busyCleanTrace (enableTrace key outcome)
    ∧ busyCleanTrace (disableTrace key outcome)
    ∧ busyCleanTrace (upgradeTrace key outcome)
    ∧ busyCleanTrace (seedTrace key seedKey outcome) :=
  ⟨fun hb hs => renderedControls_disabled hb hs mods,
   actionTrace_busyClean _ _ _,
   actionTrace_busyClean _ _ _,
   actionTrace_busyClean _ _ _,
   actionTrace_busyClean _ _ _,
   actionTrace_busyClean _ _ _⟩

/-- C10 witness: with busyKey the non-empty key wms, every rendered control of
the one-row module list is disabled, and the install handler trace clears
busyKey only as its final event. -/
theorem erp_c10_witness :
    (∀ b ∈ renderedControls (some "wms") demoMods, b.disabled = true)
    ∧ busyCleanTrace (installTrace "wms" none) :=
  ⟨(erp_c10_busy_discipline (some "wms") "wms" demoMods "wms" "default_locations" none).1
      rfl (by decide),
   (erp_c10_busy_discipline (some "wms") "wms" demoMods "wms" "default_locations" none).2.1⟩
